import Mathlib

/-!
Verification of the dashboard business service (`business/dashboards.go`) of
k-charted: template resolution with cycle detection, two-tier namespace
lookup, include flattening, metric-based dashboard discovery, and label
selector construction.

The Go code is shallowly embedded: the Kubernetes template store and the
Prometheus client are external collaborators and appear as explicit
function/`Except` parameters; the mutable `loaded` map (`map[string]bool`
passed by reference) becomes an explicitly threaded list of names; the
unbounded mutual recursion of `loadAndResolveDashboardResource` /
`resolveReferences` is driven by an explicit fuel parameter, with a
dedicated `outOfFuel` marker that is proved unreachable for sufficient fuel.
-/

namespace KCharted

/-! ## Models of the Go standard library string functions used by the code -/

/-- Whitespace as trimmed by Go `strings.TrimSpace` (restricted to the ASCII
whitespace characters, which is all the code and spec exercise). -/
def isSpaceChar (c : Char) : Bool :=
  c = ' ' || c = '\t' || c = '\n' || c = '\r'

/-- Model of Go `strings.TrimSpace`: drop whitespace from both ends. -/
def trimSpace (s : String) : String :=
  ⟨((s.data.dropWhile isSpaceChar).reverse.dropWhile isSpaceChar).reverse⟩

/-- Split a character list at every occurrence of `c`; always returns a
non-empty list of groups.  Mirrors Go `strings.Split` with a one-character
separator. -/
def splitCharAux (c : Char) : List Char → List (List Char)
  | [] => [[]]
  | a :: rest =>
    match splitCharAux c rest with
    | g :: gs => if a = c then [] :: g :: gs else (a :: g) :: gs
    | [] => if a = c then [[], []] else [[a]]

/-- Model of Go `strings.Split(s, "$")`. -/
def splitOnDollar (s : String) : List String :=
  (splitCharAux '$' s.data).map (fun g => ⟨g⟩)

/-- Model of Go `strings.Join(l, ",")`. -/
def joinComma : List String → String
  | [] => ""
  | [s] => s
  | s :: rest => s ++ "," ++ joinComma rest

/-! ## Data model (`v1alpha1.MonitoringDashboard` and friends) -/

/-- The chart fields the verified code paths read
(`v1alpha1.MonitoringDashboardChart`). -/
structure MonitoringDashboardChart where
  name : String
  groupLabels : List String
  sortLabel : String
  sortLabelParseAs : String
  deriving DecidableEq, Repr

/-- Model of `v1alpha1.MonitoringDashboardItem`: either an include reference
(Go field `Include`, here `includeRef` since `include` is a Lean keyword)
or an inline chart. -/
structure MonitoringDashboardItem where
  includeRef : String
  chart : MonitoringDashboardChart
  deriving DecidableEq, Repr

/-- Model of `v1alpha1.MonitoringDashboardSpec` (the fields the code reads). -/
structure MonitoringDashboardSpec where
  title : String
  runtime : String
  discoverOn : String
  items : List MonitoringDashboardItem
  deriving DecidableEq, Repr

/-- Model of `v1alpha1.MonitoringDashboard`. -/
structure MonitoringDashboard where
  name : String
  spec : MonitoringDashboardSpec
  deriving DecidableEq, Repr

/-- Model of `model.DashboardRef`. -/
structure DashboardRef where
  template : String
  title : String
  deriving DecidableEq, Repr

/-- Model of `model.Runtime`. -/
structure Runtime where
  name : String
  dashboardRefs : List DashboardRef
  deriving DecidableEq, Repr

/-- The configuration fields the code reads (`config.Config`). -/
structure Config where
  globalNamespace : String
  namespaceLabel : String
  deriving DecidableEq, Repr

/-- The external template store (`kubernetes.ClientInterface.GetDashboard`),
indexed by namespace then template name; failures carry the client error. -/
abbrev Store := String → String → Except String MonitoringDashboard

/-! ## Template resolver -/

/-- Model of `loadRawDashboardResource`: look in the specific namespace first; on
failure, if a global namespace is configured, fall back to it (and surface
that second error); otherwise surface the first error. -/
def loadRawDashboardResource (store : Store) (cfg : Config)
    (ns template : String) : Except String MonitoringDashboard :=
  match store ns template with
  | .ok dashboard => .ok dashboard
  | .error e =>
    if cfg.globalNamespace ≠ "" then
      match store cfg.globalNamespace template with
      | .ok dashboard => .ok dashboard
      | .error e2 => .error e2
    else .error e

/-- Errors of the resolution functions.  `circular` carries the template
that was revisited and the dependency chain accumulated so far (the Go code
formats both into the error message); `loadError` carries the store error;
`outOfFuel` is an artifact of the fuel-driven embedding and is proved
unreachable for sufficient fuel. -/
inductive ResolveError where
  | circular (template : String) (loaded : List String)
  | loadError (msg : String)
  | outOfFuel
  deriving DecidableEq, Repr

/-- The item-expansion loop of `resolveReferences`, parameterized by the
recursive resolution call.  Inline items are kept in place; a non-empty
(trimmed) include reference is split on the dollar sign: the whole referenced
dashboard is spliced in, or - when a chart is named - only the first item
whose chart name matches.  The `loaded` set is threaded through, mirroring
the by-reference Go map. -/
def resolveItemsGo
    (recur : String → List String →
      Except ResolveError (MonitoringDashboard × List String)) :
    List MonitoringDashboardItem → List String →
      Except ResolveError (List MonitoringDashboardItem × List String)
  | [], loaded => .ok ([], loaded)
  | item :: rest, loaded =>
    let reference := trimSpace item.includeRef
    if reference = "" then
      match resolveItemsGo recur rest loaded with
      | .ok (r, loaded1) => .ok (item :: r, loaded1)
      | .error e => .error e
    else
      let parts := splitOnDollar reference
      match recur (parts.headD "") loaded with
      | .error e => .error e
      | .ok (composedDashboard, loaded1) =>
        let spliced :=
          match parts.drop 1 with
          | [] => composedDashboard.spec.items
          | chartName :: _ =>
            match composedDashboard.spec.items.find?
                (fun item2 => item2.chart.name == chartName) with
            | some item2 => [item2]
            | none => []
        match resolveItemsGo recur rest loaded1 with
        | .ok (r, loaded2) => .ok (spliced ++ r, loaded2)
        | .error e => .error e

/-- Model of `loadAndResolveDashboardResource`: fail on a revisited template
(circular dependency), otherwise record the template in `loaded`, load it
through the two-tier lookup and resolve its references recursively. -/
def loadAndResolveDashboardResource (store : Store) (cfg : Config)
    (ns : String) :
    Nat → String → List String →
      Except ResolveError (MonitoringDashboard × List String)
  | 0, _, _ => .error .outOfFuel
  | fuel + 1, template, loaded =>
    if template ∈ loaded then .error (.circular template loaded)
    else
      match loadRawDashboardResource store cfg ns template with
      | .error e => .error (.loadError e)
      | .ok dashboard =>
        match resolveItemsGo
            (loadAndResolveDashboardResource store cfg ns fuel)
            dashboard.spec.items (template :: loaded) with
        | .ok (items, loaded1) =>
          .ok ({ dashboard with spec := { dashboard.spec with items := items } },
               loaded1)
        | .error e => .error e

/-- Model of `resolveReferences` applied to a bare item list (a dashboard's items),
at a given fuel. -/
def resolveItems (store : Store) (cfg : Config) (ns : String) (fuel : Nat) :
    List MonitoringDashboardItem → List String →
      Except ResolveError (List MonitoringDashboardItem × List String) :=
  resolveItemsGo (loadAndResolveDashboardResource store cfg ns fuel)

/-- The template names referenced by the include items of an item list
(first component of the dollar-split of each non-empty trimmed reference). -/
def includeHeads (items : List MonitoringDashboardItem) : List String :=
  items.filterMap fun item =>
    let reference := trimSpace item.includeRef
    if reference = "" then none else some ((splitOnDollar reference).headD "")

/-- The include graph over template names induced by the store (as seen
through the two-tier lookup): `t` references `u` when `t` loads successfully
and `u` is one of its include heads. -/
def IncludeEdge (store : Store) (cfg : Config) (ns : String)
    (t u : String) : Prop :=
  ∃ d, loadRawDashboardResource store cfg ns t = .ok d ∧
    u ∈ includeHeads d.spec.items

/-- Reachability in the include graph. -/
def ReachableFrom (store : Store) (cfg : Config) (ns : String)
    (t u : String) : Prop :=
  Relation.ReflTransGen (IncludeEdge store cfg ns) t u

/-! ## Metrics aggregator: grouping labels and label selector -/

/-- Model of `model.ConversionParams` (the fields involved in sort-label handling;
the float-valued unit scale is not read by any verified path). -/
structure ConversionParams where
  sortLabel : String
  sortLabelParseAs : String
  removeSortLabel : Bool
  deriving DecidableEq, Repr

/-- The grouping-label computation of `GetDashboard` for one chart: the
chart's group labels concatenated with the caller's `byLabels`; if the chart
declares a sort label that is absent from that set, it is appended and the
`removeSortLabel` conversion flag is raised. -/
def chartByLabels (chart : MonitoringDashboardChart)
    (paramsByLabels : List String) : List String × Bool :=
  let byLabels := chart.groupLabels ++ paramsByLabels
  if chart.sortLabel.length > 0 && !(byLabels.contains chart.sortLabel) then
    (byLabels ++ [chart.sortLabel], true)
  else
    (byLabels, false)

/-- The grouping string handed to the Prometheus client for one chart. -/
def chartGroupingString (chart : MonitoringDashboardChart)
    (paramsByLabels : List String) : String :=
  joinComma (chartByLabels chart paramsByLabels).1

/-- Modelled from the spec: the series conversion step lives in the `model`
package, which is not part of the sources under verification; per the spec,
when the `removeSortLabel` flag is set the conversion strips the sort label
from each returned series' label set. -/
def stripSortLabel (params : ConversionParams)
    (labels : List (String × String)) : List (String × String) :=
  if params.removeSortLabel then
    labels.filter (fun kv => kv.1 ≠ params.sortLabel)
  else labels

/-- Model of `defaultNamespaceLabel`. -/
def defaultNamespaceLabel : String := "namespace"

/-- Model of `buildLabels`: the Prometheus label selector, anchored on the
(configurable) namespace label and extended with one equality per filter.
The Go iteration over the filter map is modelled by a list in iteration
order. -/
def buildLabels (cfg : Config) (ns : String)
    (labelsFilters : List (String × String)) : String :=
  let namespaceLabel :=
    if cfg.namespaceLabel = "" then defaultNamespaceLabel
    else cfg.namespaceLabel
  let labels := "\x7b" ++ namespaceLabel ++ "=\"" ++ ns ++ "\""
  let labels := labelsFilters.foldl
    (fun acc kv => acc ++ "," ++ kv.1 ++ "=\"" ++ kv.2 ++ "\"") labels
  labels ++ "\x7d"

/-! ## Discovery matcher -/

/-- The runtimes map of `runDiscoveryMatcher`
(Go `map[string]*v1alpha1.MonitoringDashboard`), as an association list in
insertion order; `none` models a `nil` entry (a suppressed dashboard). -/
abbrev RuntimesMap := List (String × Option MonitoringDashboard)

/-- Insert-if-absent, modelling the Go existence check before insertion. -/
def runtimesMapInsert (m : RuntimesMap) (d : MonitoringDashboard) :
    RuntimesMap :=
  if m.any (fun kv => kv.1 == d.name) then m else m ++ [(d.name, some d)]

/-- Suppression, modelling the unconditional Go map write of a `nil` entry. -/
def runtimesMapSuppress (m : RuntimesMap) (key : String) : RuntimesMap :=
  if m.any (fun kv => kv.1 == key) then
    m.map (fun kv => if kv.1 == key then (kv.1, none) else kv)
  else m ++ [(key, none)]

/-- One iteration of the dashboard loop of `runDiscoveryMatcher`: if the
trimmed `discoverOn` metric matches some reported metric (after trimming),
record the dashboard (first insertion wins) and then bind every non-empty
raw include string of its items to `nil`. -/
def matchDashboard (metrics : List String) (m : RuntimesMap)
    (dashboard : MonitoringDashboard) : RuntimesMap :=
  let matchReference := trimSpace dashboard.spec.discoverOn
  if matchReference ≠ "" ∧
      metrics.any (fun metric => matchReference == trimSpace metric) then
    dashboard.spec.items.foldl
      (fun acc item =>
        if item.includeRef ≠ "" then runtimesMapSuppress acc item.includeRef
        else acc)
      (runtimesMapInsert m dashboard)
  else m

/-- The search loop of `addDashboardToRuntimes`: append the reference to the
first group with the given runtime name, or create a new group at the end. -/
def appendRefToRuntimes (runtimeName : String) (ref : DashboardRef) :
    List Runtime → List Runtime
  | [] => [⟨runtimeName, [ref]⟩]
  | rt :: rest =>
    if rt.name = runtimeName then
      { rt with dashboardRefs := rt.dashboardRefs ++ [ref] } :: rest
    else rt :: appendRefToRuntimes runtimeName ref rest

/-- Model of `addDashboardToRuntimes`. -/
def addDashboardToRuntimes (dashboard : MonitoringDashboard)
    (runtimes : List Runtime) : List Runtime :=
  appendRefToRuntimes dashboard.spec.runtime
    ⟨dashboard.name, dashboard.spec.title⟩ runtimes

/-- Insertion step of the final name sort
(`sort.Slice(runtimes, Name <)`; runtime names are pairwise distinct by
construction, so any sort by name yields the same list). -/
def insertRuntimeByName (rt : Runtime) : List Runtime → List Runtime
  | [] => [rt]
  | r :: rest =>
    if rt.name ≤ r.name then rt :: r :: rest
    else r :: insertRuntimeByName rt rest

/-- The final name sort of `runDiscoveryMatcher`. -/
def sortRuntimesByName (runtimes : List Runtime) : List Runtime :=
  runtimes.foldr insertRuntimeByName []

/-- Model of `runDiscoveryMatcher`: match every dashboard against the metric set,
suppress included dashboards, group the survivors by runtime and sort the
groups by name.  The Go map iteration orders are modelled by list orders. -/
def runDiscoveryMatcher (metrics : List String)
    (allDashboards : List MonitoringDashboard) : List Runtime :=
  let runtimesMap := allDashboards.foldl (matchDashboard metrics) []
  let runtimes := runtimesMap.foldl
    (fun acc kv =>
      match kv.2 with
      | some dashboard => addDashboardToRuntimes dashboard acc
      | none => acc)
    []
  sortRuntimesByName runtimes

/-- Model of `fetchMetricNames`: a failed Prometheus client initialization yields an
empty list; a failed `GetMetricsForLabels` call is logged and yields its
`nil` (empty) result. -/
def fetchMetricNames (promInit : Except String Unit)
    (fetched : Except String (List String)) : List String :=
  match promInit with
  | .error _ => []
  | .ok _ =>
    match fetched with
    | .ok metrics => metrics
    | .error _ => []

/-- Model of `DiscoverDashboards`: a template-load failure is logged and yields an
empty runtime list without running the matcher; otherwise the matcher runs
on the (possibly degraded) metric set.  Note the Go return type
`[]model.Runtime` carries no error. -/
def DiscoverDashboards
    (loadedDashboards : Except String (List MonitoringDashboard))
    (promInit : Except String Unit)
    (fetched : Except String (List String)) : List Runtime :=
  match loadedDashboards with
  | .error _ => []
  | .ok allDashboards =>
    runDiscoveryMatcher (fetchMetricNames promInit fetched) allDashboards

/-! ## Position of a name in a chain (insertion order bookkeeping) -/

/-- Index of the first occurrence of `t` in `l` (length of `l` when absent).
Chains are built by prepending, so a smaller position means a later
insertion. -/
def namePos : List String → String → Nat
  | [], _ => 0
  | a :: rest, t => if a = t then 0 else namePos rest t + 1

/-! ## Resolver lemmas: success invariant (insertion-order tracking) -/

/-- All include successors of `t` are in the chain `L`, at strictly smaller
positions (i.e. they were inserted strictly later than `t`). -/
def TrackedIn (store : Store) (cfg : Config) (ns : String)
    (L : List String) (t : String) : Prop :=
  ∀ u, IncludeEdge store cfg ns t u → u ∈ L ∧ namePos L u < namePos L t

/-- Invariant of a successful recursive resolution call: the resulting chain
is duplicate-free, extends the input chain by a prefix containing the
resolved template, and every newly inserted template has all its include
successors inserted strictly later. -/
def ResolveInv (store : Store) (cfg : Config) (ns : String)
    (recur : String → List String →
      Except ResolveError (MonitoringDashboard × List String)) : Prop :=
  ∀ t loaded d L2, recur t loaded = .ok (d, L2) → loaded.Nodup →
    L2.Nodup ∧ (∃ grown, L2 = grown ++ loaded ∧ t ∈ grown) ∧
    ∀ x ∈ L2, x ∉ loaded → TrackedIn store cfg ns L2 x

/-! ## Resolver lemmas: sufficient fuel is never exhausted -/

/-- Number of template names (drawn from a finite support `names` of the
store) not yet recorded in the chain. -/
def remainingNames (names loaded : List String) : Nat :=
  (names.toFinset \ loaded.toFinset).card

/-! ## Concrete fixtures used by witnesses and counterexamples -/

/-- An inline item (empty include reference) carrying a named chart. -/
def inlineItem (chartName : String) : MonitoringDashboardItem :=
  ⟨"", ⟨chartName, [], "", ""⟩⟩

/-- An include item (non-empty reference, chart ignored by resolution). -/
def includeItem (reference : String) : MonitoringDashboardItem :=
  ⟨reference, ⟨"", [], "", ""⟩⟩

/-- Dashboard builder. -/
def mkDashboard (dname title runtime discoverOn : String)
    (items : List MonitoringDashboardItem) : MonitoringDashboard :=
  ⟨dname, ⟨title, runtime, discoverOn, items⟩⟩

/-- A store holding the 3-cycle A → B → C → A. -/
def cycleStore : Store := fun _ t =>
  if t = "A" then .ok (mkDashboard "A" "A title" "rt" "" [includeItem "B"])
  else if t = "B" then
    .ok (mkDashboard "B" "B title" "rt" "" [includeItem "C"])
  else if t = "C" then
    .ok (mkDashboard "C" "C title" "rt" "" [includeItem "A"])
  else .error "dashboard not found"

/-- A store with a template present in both tiers, one present only in the
global tier, and one present in neither. -/
def twoTierStore : Store := fun n t =>
  if n = "ns" then
    if t = "both" then .ok (mkDashboard "both" "ns version" "rt" "" [])
    else .error "not found in ns"
  else if n = "global" then
    if t = "both" then .ok (mkDashboard "both" "global version" "rt" "" [])
    else if t = "gonly" then
      .ok (mkDashboard "gonly" "global only" "rt" "" [])
    else .error "not found in global"
  else .error "no such namespace"

/-! ## Claim C3 -/

/-- A store where A has three items whose middle one includes B, and B has
two inline charts. -/
def flattenStore : Store := fun _ t =>
  if t = "A" then
    .ok (mkDashboard "A" "A title" "rt" ""
      [inlineItem "A1", includeItem "B", inlineItem "A3"])
  else if t = "B" then
    .ok (mkDashboard "B" "B title" "rt" "" [inlineItem "B1", inlineItem "B2"])
  else .error "dashboard not found"

/-- A store where A includes only chart ChartX of B, and B has charts
[ChartX, ChartY, ChartX(duplicate)]. -/
def scopedStore : Store := fun _ t =>
  if t = "A" then
    .ok (mkDashboard "A" "A title" "rt" "" [includeItem "B$ChartX"])
  else if t = "B" then
    .ok (mkDashboard "B" "B title" "rt" ""
      [inlineItem "ChartX", inlineItem "ChartY",
       ⟨"", ⟨"ChartX", ["dup"], "", ""⟩⟩])
  else .error "dashboard not found"

/-! ## Claim C10 -/

/-- A store holding the acyclic diamond: `a` includes `b` and `c`, and both
`b` and `c` include `d` (which is inline-only). -/
def diamondStore (a b c d : String) : Store := fun _ t =>
  if t = a then .ok (mkDashboard a "a title" "rt" ""
    [includeItem b, includeItem c])
  else if t = b then .ok (mkDashboard b "b title" "rt" "" [includeItem d])
  else if t = c then .ok (mkDashboard c "c title" "rt" "" [includeItem d])
  else if t = d then .ok (mkDashboard d "d title" "rt" "" [inlineItem "x"])
  else .error "dashboard not found"

/-- Every non-`nil` entry of the runtimes map holds a dashboard named after
its key. -/
def ValuesNamedByKey (m : RuntimesMap) : Prop :=
  ∀ kv ∈ m, ∀ d, kv.2 = some d → d.name = kv.1

/-- The key is present in the runtimes map and bound to `nil`. -/
def SuppressedAt (m : RuntimesMap) (key : String) : Prop :=
  (∃ kv ∈ m, kv.1 = key) ∧ ∀ kv ∈ m, kv.1 = key → kv.2 = none

/-! ## Discovery lemmas: reference extraction and sorting -/

/-- Predicate transformer: `P` holds of every reference in every group. -/
def AllRefs (runtimes : List Runtime) (P : DashboardRef → Prop) : Prop :=
  ∀ rt ∈ runtimes, ∀ ref ∈ rt.dashboardRefs, P ref

/-! ## Claim C5 -/

/-- Parent includes `Child$ChartX` (a scoped reference); both Parent and
Child declare `discoverOn = m1`. -/
def parentChildScopedDashboards : List MonitoringDashboard :=
  [mkDashboard "Parent" "Parent title" "vm" "m1" [includeItem "Child$ChartX"],
   mkDashboard "Child" "Child title" "vm2" "m1" [inlineItem "ChartX"]]

/-- Parent includes `Child` (whole-template reference); both declare
`discoverOn = m1`. -/
def parentChildDashboards : List MonitoringDashboard :=
  [mkDashboard "Parent" "Parent title" "vm" "m1" [includeItem "Child"],
   mkDashboard "Child" "Child title" "vm2" "m1" [inlineItem "C1"]]

/-! ## Claim C9 -/

/-- The selector fragment contributed by the caller-supplied filters: one
`,key="value"` equality constraint per filter, in iteration order. -/
def selectorOfFilters : List (String × String) → String
  | [] => ""
  | kv :: rest => "," ++ kv.1 ++ "=\"" ++ kv.2 ++ "\"" ++ selectorOfFilters rest

theorem namePos_append_of_mem {l1 : List String} (l2 : List String)
    {t : String} (h : t ∈ l1) :
    namePos (l1 ++ l2) t = namePos l1 t := by
  induction l1 with
  | nil => cases h
  | cons a rest ih =>
    by_cases ha : a = t
    · simp [namePos, ha]
    · have h2 : t ∈ rest := by
        rcases List.mem_cons.mp h with h1 | h1
        · exact absurd h1.symm ha
        · exact h1
      simp [namePos, ha, ih h2]

theorem namePos_append_of_not_mem {l1 : List String} (l2 : List String)
    {t : String} (h : t ∉ l1) :
    namePos (l1 ++ l2) t = l1.length + namePos l2 t := by
  induction l1 with
  | nil => simp [namePos]
  | cons a rest ih =>
    have ha : a ≠ t := fun hc => h (hc ▸ List.mem_cons_self a rest)
    have hrest : t ∉ rest := fun hc => h (List.mem_cons_of_mem a hc)
    calc namePos ((a :: rest) ++ l2) t
        = namePos (rest ++ l2) t + 1 := by simp [namePos, ha]
      _ = (rest.length + namePos l2 t) + 1 := by rw [ih hrest]
      _ = (a :: rest).length + namePos l2 t := by
          simp only [List.length_cons]; omega

theorem namePos_lt_length_of_mem {l : List String} {t : String}
    (h : t ∈ l) : namePos l t < l.length := by
  induction l with
  | nil => cases h
  | cons a rest ih =>
    by_cases ha : a = t
    · simp [namePos, ha]
    · have h2 : t ∈ rest := by
        rcases List.mem_cons.mp h with h1 | h1
        · exact absurd h1.symm ha
        · exact h1
      simpa [namePos, ha] using ih h2

/-! ## Resolver lemmas: the loaded chain only grows (prepend-only) -/

/-- Abstract successful-call shape for the recursive resolution callback:
the returned chain extends the given one by a prefix containing the
resolved template. -/
theorem resolveItemsGo_suffix
    {recur : String → List String →
      Except ResolveError (MonitoringDashboard × List String)}
    (hrec : ∀ t loaded d L2, recur t loaded = .ok (d, L2) →
      ∃ grown, L2 = grown ++ loaded) :
    ∀ items loaded r L2, resolveItemsGo recur items loaded = .ok (r, L2) →
      ∃ grown, L2 = grown ++ loaded := by
  intro items
  induction items with
  | nil =>
    intro loaded r L2 hres
    simp only [resolveItemsGo] at hres
    exact ⟨[], by simpa using (congrArg Prod.snd (Except.ok.inj hres)).symm⟩
  | cons item rest ih =>
    intro loaded r L2 hres
    simp only [resolveItemsGo] at hres
    split at hres
    · -- inline item
      split at hres
      · rename_i r1 heq
        obtain ⟨grown, hg⟩ := ih loaded _ _ heq
        cases hres
        exact ⟨grown, hg⟩
      · cases hres
    · -- include item
      split at hres
      · cases hres
      · rename_i composed hrecur
        split at hres
        · rename_i r2 heq
          obtain ⟨g1, hg1⟩ := hrec _ _ _ _ hrecur
          obtain ⟨g2, hg2⟩ := ih _ _ _ heq
          cases hres
          exact ⟨g2 ++ g1, by rw [hg2, hg1, List.append_assoc]⟩
        · cases hres

/-- A successful `loadAndResolveDashboardResource` call only prepends to the
`loaded` chain, and the resolved template itself is among the new names:
nothing is ever removed after an expansion completes. -/
theorem loadAndResolve_suffix (store : Store) (cfg : Config) (ns : String) :
    ∀ fuel t loaded d L2,
      loadAndResolveDashboardResource store cfg ns fuel t loaded
        = .ok (d, L2) →
      ∃ grown, L2 = grown ++ loaded ∧ t ∈ grown := by
  intro fuel
  induction fuel with
  | zero => intro t loaded d L2 hres; simp [loadAndResolveDashboardResource] at hres
  | succ fuel ih =>
    intro t loaded d L2 hres
    simp only [loadAndResolveDashboardResource] at hres
    split at hres
    · cases hres
    · split at hres
      · cases hres
      · split at hres
        · rename_i items loaded1 heq
          obtain ⟨grown, hg⟩ := resolveItemsGo_suffix
            (fun t' l' d' L' h => by
              obtain ⟨g, hgg, _⟩ := ih t' l' d' L' h
              exact ⟨g, hgg⟩) _ _ _ _ heq
          cases hres
          refine ⟨grown ++ [t], ?_, by simp⟩
          rw [hg]; simp
        · cases hres

theorem trackedIn_extend {store : Store} {cfg : Config} {ns : String}
    {grown L : List String} {x : String}
    (hnd : (grown ++ L).Nodup) (hx : x ∈ L)
    (h : TrackedIn store cfg ns L x) :
    TrackedIn store cfg ns (grown ++ L) x := by
  intro u hu
  obtain ⟨hum, hidx⟩ := h u hu
  have hdis := List.disjoint_of_nodup_append hnd
  have hxg : x ∉ grown := fun hc => hdis hc hx
  have hug : u ∉ grown := fun hc => hdis hc hum
  refine ⟨List.mem_append_right _ hum, ?_⟩
  rw [namePos_append_of_not_mem _ hug, namePos_append_of_not_mem _ hxg]
  omega

theorem resolveItemsGo_inv {store : Store} {cfg : Config} {ns : String}
    {recur : String → List String →
      Except ResolveError (MonitoringDashboard × List String)}
    (hrec : ResolveInv store cfg ns recur) :
    ∀ items loaded r L2, resolveItemsGo recur items loaded = .ok (r, L2) →
      loaded.Nodup →
      L2.Nodup ∧
      (∃ grown, L2 = grown ++ loaded ∧
        ∀ u ∈ includeHeads items, u ∈ grown) ∧
      ∀ x ∈ L2, x ∉ loaded → TrackedIn store cfg ns L2 x := by
  intro items
  induction items with
  | nil =>
    intro loaded r L2 hres hnd
    simp only [resolveItemsGo] at hres
    injection hres with heq
    injection heq with h1 h2
    subst h1; subst h2
    exact ⟨hnd, ⟨[], by simp [includeHeads]⟩,
      fun x hx hnx => absurd hx hnx⟩
  | cons item rest ih =>
    intro loaded r L2 hres hnd
    simp only [resolveItemsGo] at hres
    split at hres
    · -- inline item: reference is empty
      rename_i hrefEmpty
      split at hres
      · rename_i r1 loaded1 heq
        injection hres with heq2
        injection heq2 with h1 h2
        subst h1; subst h2
        obtain ⟨hnd2, ⟨grown, hg, hheads⟩, htr⟩ := ih loaded _ _ heq hnd
        refine ⟨hnd2, ⟨grown, hg, ?_⟩, htr⟩
        intro u hu
        apply hheads
        simpa [includeHeads, hrefEmpty] using hu
      · cases hres
    · -- include item
      rename_i hrefNonempty
      split at hres
      · cases hres
      · rename_i composed loaded1 hrecur
        split at hres
        · rename_i r2 loaded2 heq
          injection hres with heq2
          injection heq2 with h1 h2
          subst h1; subst h2
          obtain ⟨hnd1, ⟨g1, hg1, hmem1⟩, htr1⟩ := hrec _ _ _ _ hrecur hnd
          obtain ⟨hnd2, ⟨g2, hg2, hheads2⟩, htr2⟩ := ih _ _ _ heq hnd1
          refine ⟨hnd2, ⟨g2 ++ g1, ?_, ?_⟩, ?_⟩
          · rw [hg2, hg1, List.append_assoc]
          · intro u hu
            rw [show includeHeads (item :: rest)
                = (splitOnDollar (trimSpace item.includeRef)).headD ""
                  :: includeHeads rest from by
              simp [includeHeads, hrefNonempty]] at hu
            rcases List.mem_cons.mp hu with h1 | h1
            · subst h1
              exact List.mem_append_right _ hmem1
            · exact List.mem_append_left _ (hheads2 _ h1)
          · intro x hx hnx
            by_cases hx1 : x ∈ loaded1
            · have ht1 : TrackedIn store cfg ns loaded1 x := htr1 x hx1 hnx
              rw [hg2]
              exact trackedIn_extend (hg2 ▸ hnd2) hx1 ht1
            · exact htr2 x hx hx1
        · cases hres

/-- The success invariant holds for `loadAndResolveDashboardResource` at
every fuel. -/
theorem loadAndResolve_inv (store : Store) (cfg : Config) (ns : String) :
    ∀ fuel, ResolveInv store cfg ns
      (loadAndResolveDashboardResource store cfg ns fuel) := by
  intro fuel
  induction fuel with
  | zero =>
    intro t loaded d L2 hres hnd
    simp [loadAndResolveDashboardResource] at hres
  | succ fuel ih =>
    intro t loaded d L2 hres hnd
    simp only [loadAndResolveDashboardResource] at hres
    split at hres
    · cases hres
    · rename_i hnotmem
      split at hres
      · cases hres
      · rename_i dashboard hload
        split at hres
        · rename_i ritems loaded1 heq
          injection hres with heq2
          injection heq2 with h1 h2
          subst h1; subst h2
          have hndc : (t :: loaded).Nodup :=
            List.nodup_cons.mpr ⟨hnotmem, hnd⟩
          obtain ⟨hnd2, ⟨grown, hg, hheads⟩, htr⟩ :=
            resolveItemsGo_inv ih dashboard.spec.items (t :: loaded) _ _
              heq hndc
          have htg : t ∉ grown := by
            intro hc
            have hdis := List.disjoint_of_nodup_append (hg ▸ hnd2)
            exact hdis hc (List.mem_cons_self t loaded)
          refine ⟨hnd2, ⟨grown ++ [t], by rw [hg]; simp, by simp⟩, ?_⟩
          intro x hx hnx
          by_cases hxt : x = t
          · intro u hu
            obtain ⟨d2, hload2, humem⟩ := hu
            have hd2 : d2 = dashboard := by
              rw [hxt] at hload2
              rw [hload] at hload2
              exact (Except.ok.inj hload2).symm
            subst hd2
            have hug : u ∈ grown := hheads u humem
            have hxg : x ∉ grown := by rw [hxt]; exact htg
            constructor
            · rw [hg]; exact List.mem_append_left _ hug
            · rw [hg, namePos_append_of_mem _ hug,
                namePos_append_of_not_mem _ hxg, hxt]
              have h1 : namePos grown u < grown.length :=
                namePos_lt_length_of_mem hug
              have h2 : namePos (t :: loaded) t = 0 := by simp [namePos]
              omega
          · have hxc : x ∉ t :: loaded := by
              intro hc
              rcases List.mem_cons.mp hc with h1 | h1
              · exact hxt h1
              · exact hnx h1
            exact htr x hx hxc
        · cases hres

theorem remainingNames_le_of_suffix (names loaded grown : List String) :
    remainingNames names (grown ++ loaded) ≤ remainingNames names loaded := by
  apply Finset.card_le_card
  apply Finset.sdiff_subset_sdiff (Finset.Subset.refl _)
  rw [List.toFinset_append]
  exact Finset.subset_union_right

theorem remainingNames_cons_lt {names loaded : List String} {t : String}
    (ht : t ∈ names) (hnl : t ∉ loaded) :
    remainingNames names (t :: loaded) < remainingNames names loaded := by
  unfold remainingNames
  rw [List.toFinset_cons, Finset.sdiff_insert]
  have hmem : t ∈ names.toFinset \ loaded.toFinset :=
    Finset.mem_sdiff.mpr ⟨List.mem_toFinset.mpr ht,
      fun hc => hnl (List.mem_toFinset.mp hc)⟩
  have hpos : 0 < (names.toFinset \ loaded.toFinset).card :=
    Finset.card_pos.mpr ⟨t, hmem⟩
  rw [Finset.card_erase_of_mem hmem]
  omega

theorem mem_names_of_loadRaw {store : Store} {cfg : Config} {ns : String}
    {names : List String}
    (hnames : ∀ ns2 t d, store ns2 t = .ok d → t ∈ names)
    {t : String} {d : MonitoringDashboard}
    (h : loadRawDashboardResource store cfg ns t = .ok d) : t ∈ names := by
  unfold loadRawDashboardResource at h
  split at h
  · rename_i heq
    exact hnames _ _ _ heq
  · split at h
    · split at h
      · rename_i heq
        exact hnames _ _ _ heq
      · cases h
    · cases h

theorem resolveItemsGo_ne_outOfFuel {names : List String} {F : Nat}
    {recur : String → List String →
      Except ResolveError (MonitoringDashboard × List String)}
    (hrecFuel : ∀ t loaded, remainingNames names loaded < F →
      recur t loaded ≠ .error .outOfFuel)
    (hrecSub : ∀ t loaded d L2, recur t loaded = .ok (d, L2) →
      ∃ grown, L2 = grown ++ loaded) :
    ∀ items loaded, remainingNames names loaded < F →
      resolveItemsGo recur items loaded ≠ .error .outOfFuel := by
  intro items
  induction items with
  | nil =>
    intro loaded hlt hcon
    simp [resolveItemsGo] at hcon
  | cons item rest ih =>
    intro loaded hlt hcon
    simp only [resolveItemsGo] at hcon
    split at hcon
    · split at hcon
      · cases hcon
      · rename_i heq
        injection hcon with hcon2
        exact ih loaded hlt (hcon2 ▸ heq)
    · split at hcon
      · rename_i heq
        injection hcon with hcon2
        exact hrecFuel _ loaded hlt (hcon2 ▸ heq)
      · rename_i composed loaded1 hrecur
        obtain ⟨grown, hg⟩ := hrecSub _ _ _ _ hrecur
        have hlt1 : remainingNames names loaded1 < F := by
          have := remainingNames_le_of_suffix names loaded grown
          rw [hg]; omega
        split at hcon
        · cases hcon
        · rename_i heq
          injection hcon with hcon2
          exact ih loaded1 hlt1 (hcon2 ▸ heq)

/-- Termination: with fuel exceeding the number of template names the store
can ever return, resolution never exhausts its fuel — the Go recursion
always terminates. -/
theorem loadAndResolve_ne_outOfFuel (store : Store) (cfg : Config)
    (ns : String) {names : List String}
    (hnames : ∀ ns2 t d, store ns2 t = .ok d → t ∈ names) :
    ∀ fuel t loaded, remainingNames names loaded < fuel →
      loadAndResolveDashboardResource store cfg ns fuel t loaded
        ≠ .error .outOfFuel := by
  intro fuel
  induction fuel with
  | zero => intro t loaded hlt; omega
  | succ fuel ih =>
    intro t loaded hlt hcon
    simp only [loadAndResolveDashboardResource] at hcon
    split at hcon
    · simp at hcon
    · rename_i hnotmem
      split at hcon
      · simp at hcon
      · rename_i dashboard hload
        have htn : t ∈ names := mem_names_of_loadRaw hnames hload
        have hlt1 : remainingNames names (t :: loaded) < fuel := by
          have := remainingNames_cons_lt htn hnotmem
          omega
        split at hcon
        · cases hcon
        · rename_i heq
          injection hcon with hcon2
          refine resolveItemsGo_ne_outOfFuel
            (fun t2 l2 hl2 => ih t2 l2 hl2)
            (fun t2 l2 d2 L2 h2 => by
              obtain ⟨g, hg, _⟩ := loadAndResolve_suffix store cfg ns
                fuel t2 l2 d2 L2 h2
              exact ⟨g, hg⟩)
            dashboard.spec.items (t :: loaded) hlt1 (hcon2 ▸ heq)

/-! ## Resolver lemmas: circular errors carry the accumulated chain -/

theorem resolveItemsGo_circular
    {recur : String → List String →
      Except ResolveError (MonitoringDashboard × List String)}
    (hrecC : ∀ t loaded t2 ch, recur t loaded = .error (.circular t2 ch) →
      t2 ∈ ch ∧ ∃ ext, ch = ext ++ loaded)
    (hrecSub : ∀ t loaded d L2, recur t loaded = .ok (d, L2) →
      ∃ grown, L2 = grown ++ loaded) :
    ∀ items loaded t2 ch,
      resolveItemsGo recur items loaded = .error (.circular t2 ch) →
      t2 ∈ ch ∧ ∃ ext, ch = ext ++ loaded := by
  intro items
  induction items with
  | nil =>
    intro loaded t2 ch hres
    simp [resolveItemsGo] at hres
  | cons item rest ih =>
    intro loaded t2 ch hres
    simp only [resolveItemsGo] at hres
    split at hres
    · split at hres
      · cases hres
      · rename_i heq
        injection hres with hres2
        exact ih loaded t2 ch (hres2 ▸ heq)
    · split at hres
      · rename_i heq
        injection hres with hres2
        exact hrecC _ loaded t2 ch (hres2 ▸ heq)
      · rename_i composed loaded1 hrecur
        obtain ⟨grown, hg⟩ := hrecSub _ _ _ _ hrecur
        split at hres
        · cases hres
        · rename_i heq
          injection hres with hres2
          obtain ⟨hmem, ext, hext⟩ := ih loaded1 t2 ch (hres2 ▸ heq)
          exact ⟨hmem, ext ++ grown, by rw [hext, hg, List.append_assoc]⟩

/-- A circular-dependency error always names a template that is a member of
the reported chain, and the chain extends the one passed in: the error
reports the dependency chain accumulated so far. -/
theorem loadAndResolve_circular (store : Store) (cfg : Config) (ns : String) :
    ∀ fuel t loaded t2 ch,
      loadAndResolveDashboardResource store cfg ns fuel t loaded
        = .error (.circular t2 ch) →
      t2 ∈ ch ∧ ∃ ext, ch = ext ++ loaded := by
  intro fuel
  induction fuel with
  | zero =>
    intro t loaded t2 ch hres
    simp [loadAndResolveDashboardResource] at hres
  | succ fuel ih =>
    intro t loaded t2 ch hres
    simp only [loadAndResolveDashboardResource] at hres
    split at hres
    · rename_i hmem
      injection hres with hres2
      injection hres2 with h1 h2
      subst h1; subst h2
      exact ⟨hmem, [], rfl⟩
    · split at hres
      · cases hres
      · rename_i dashboard hload
        split at hres
        · cases hres
        · rename_i heq
          injection hres with hres2
          obtain ⟨hmem, ext, hext⟩ := resolveItemsGo_circular ih
            (fun t3 l3 d3 L3 h3 => by
              obtain ⟨g, hg, _⟩ := loadAndResolve_suffix store cfg ns
                fuel t3 l3 d3 L3 h3
              exact ⟨g, hg⟩)
            dashboard.spec.items (t :: loaded) t2 ch (hres2 ▸ heq)
          exact ⟨hmem, ext ++ [t], by rw [hext]; simp⟩

/-! ## Resolver lemmas: load errors arise only at reachable templates -/

theorem resolveItemsGo_loadError {store : Store} {cfg : Config} {ns : String}
    {recur : String → List String →
      Except ResolveError (MonitoringDashboard × List String)}
    (hrecE : ∀ t loaded e, recur t loaded = .error (.loadError e) →
      ∃ u, ReachableFrom store cfg ns t u ∧
        ∃ msg, loadRawDashboardResource store cfg ns u = .error msg) :
    ∀ items loaded e,
      resolveItemsGo recur items loaded = .error (.loadError e) →
      ∃ h0 ∈ includeHeads items, ∃ u, ReachableFrom store cfg ns h0 u ∧
        ∃ msg, loadRawDashboardResource store cfg ns u = .error msg := by
  intro items
  induction items with
  | nil =>
    intro loaded e hres
    simp [resolveItemsGo] at hres
  | cons item rest ih =>
    intro loaded e hres
    simp only [resolveItemsGo] at hres
    split at hres
    · rename_i hrefEmpty
      split at hres
      · cases hres
      · rename_i heq
        injection hres with hres2
        obtain ⟨h0, hh0, hrest⟩ := ih loaded e (hres2 ▸ heq)
        refine ⟨h0, ?_, hrest⟩
        simpa [includeHeads, hrefEmpty] using hh0
    · rename_i hrefNonempty
      split at hres
      · rename_i heq
        injection hres with hres2
        obtain ⟨u, hreach, hmsg⟩ := hrecE _ loaded e (hres2 ▸ heq)
        refine ⟨(splitOnDollar (trimSpace item.includeRef)).headD "",
          ?_, u, hreach, hmsg⟩
        simp [includeHeads, hrefNonempty]
      · rename_i composed loaded1 hrecur
        split at hres
        · cases hres
        · rename_i heq
          injection hres with hres2
          obtain ⟨h0, hh0, hrest⟩ := ih loaded1 e (hres2 ▸ heq)
          refine ⟨h0, ?_, hrest⟩
          rw [show includeHeads (item :: rest)
              = (splitOnDollar (trimSpace item.includeRef)).headD ""
                :: includeHeads rest from by
            simp [includeHeads, hrefNonempty]]
          exact List.mem_cons_of_mem _ hh0

/-- A load error surfaces only when some template reachable from the
requested one fails the two-tier lookup. -/
theorem loadAndResolve_loadError (store : Store) (cfg : Config)
    (ns : String) :
    ∀ fuel t loaded e,
      loadAndResolveDashboardResource store cfg ns fuel t loaded
        = .error (.loadError e) →
      ∃ u, ReachableFrom store cfg ns t u ∧
        ∃ msg, loadRawDashboardResource store cfg ns u = .error msg := by
  intro fuel
  induction fuel with
  | zero =>
    intro t loaded e hres
    simp [loadAndResolveDashboardResource] at hres
  | succ fuel ih =>
    intro t loaded e hres
    simp only [loadAndResolveDashboardResource] at hres
    split at hres
    · cases hres
    · split at hres
      · rename_i hload
        injection hres with hres2
        injection hres2 with h1
        exact ⟨t, Relation.ReflTransGen.refl, _, h1 ▸ hload⟩
      · rename_i dashboard hload
        split at hres
        · cases hres
        · rename_i heq
          injection hres with hres2
          obtain ⟨h0, hh0, u, hreach, hmsg⟩ := resolveItemsGo_loadError ih
            dashboard.spec.items (t :: loaded) e (hres2 ▸ heq)
          refine ⟨u, ?_, hmsg⟩
          exact Relation.ReflTransGen.head ⟨dashboard, hload, hh0⟩ hreach

/-! ## Claim C1 -/

/-- C1: for every include graph containing a cycle reachable from the
requested template (with every reachable template loadable, and fuel
exceeding the store's finite name support, so that the fuel embedding is
not the limiting factor), `loadAndResolveDashboardResource` fails with a
circular-dependency error whose payload names a template of the accumulated
dependency chain; in particular the resolution terminates with that error
rather than recursing forever. -/
theorem c1_cycle_detection (store : Store) (cfg : Config) (ns : String)
    (names : List String) (tpl : String) (fuel : Nat)
    (hnames : ∀ ns2 t d, store ns2 t = .ok d → t ∈ names)
    (htot : ∀ u, ReachableFrom store cfg ns tpl u →
      ∃ d, loadRawDashboardResource store cfg ns u = .ok d)
    (hcyc : ∃ c, ReachableFrom store cfg ns tpl c ∧
      Relation.TransGen (IncludeEdge store cfg ns) c c)
    (hfuel : names.toFinset.card < fuel) :
    ∃ t2 ch, loadAndResolveDashboardResource store cfg ns fuel tpl []
        = .error (.circular t2 ch) ∧ t2 ∈ ch := by
  have hrem : remainingNames names [] = names.toFinset.card := by
    simp [remainingNames]
  cases hres : loadAndResolveDashboardResource store cfg ns fuel tpl [] with
  | ok val =>
    obtain ⟨d, L2⟩ := val
    obtain ⟨hnd2, ⟨grown, hg, htpl⟩, htr⟩ :=
      loadAndResolve_inv store cfg ns fuel tpl [] d L2 hres List.nodup_nil
    have htpl2 : tpl ∈ L2 := by rw [hg]; exact List.mem_append_left _ htpl
    have hclosure : ∀ u, ReachableFrom store cfg ns tpl u → u ∈ L2 := by
      intro u hr
      induction hr with
      | refl => exact htpl2
      | tail h1 h2 ih =>
        rename_i b c2
        exact (htr b ih (by simp) c2 h2).1
    obtain ⟨c, hreachc, htrans⟩ := hcyc
    have hdec : ∀ y, Relation.TransGen (IncludeEdge store cfg ns) c y →
        namePos L2 y < namePos L2 c := by
      intro y htg
      induction htg with
      | single h2 =>
        exact (htr c (hclosure c hreachc) (by simp) _ h2).2
      | tail htg2 h2 ih =>
        rename_i b c2
        have hrb : ReachableFrom store cfg ns tpl b :=
          hreachc.trans htg2.to_reflTransGen
        have := (htr b (hclosure b hrb) (by simp) c2 h2).2
        omega
    exact absurd (hdec c htrans) (lt_irrefl _)
  | error e =>
    cases e with
    | circular t2 ch =>
      obtain ⟨hmem, _⟩ := loadAndResolve_circular store cfg ns
        fuel tpl [] t2 ch hres
      exact ⟨t2, ch, rfl, hmem⟩
    | loadError msg =>
      obtain ⟨u, hreach, msg2, hmsg⟩ := loadAndResolve_loadError
        store cfg ns fuel tpl [] msg hres
      obtain ⟨d, hok⟩ := htot u hreach
      rw [hok] at hmsg
      cases hmsg
    | outOfFuel =>
      exact absurd hres (loadAndResolve_ne_outOfFuel store cfg ns hnames
        fuel tpl [] (by omega))

/-- Witness for C1: the 3-node cycle A → B → C → A fails with a
circular-dependency error. -/
theorem c1_cycle_detection_witness :
    ∃ t2 ch, loadAndResolveDashboardResource cycleStore ⟨"", ""⟩ "ns" 4 "A" []
        = .error (.circular t2 ch) ∧ t2 ∈ ch := by
  have hedge : ∀ x u, IncludeEdge cycleStore ⟨"", ""⟩ "ns" x u →
      (x = "A" ∧ u = "B") ∨ (x = "B" ∧ u = "C") ∨ (x = "C" ∧ u = "A") := by
    intro x u ⟨d, hload, hmem⟩
    by_cases hx1 : x = "A"
    · subst hx1
      have hd : d = mkDashboard "A" "A title" "rt" "" [includeItem "B"] :=
        (Except.ok.inj hload).symm
      subst hd
      left
      refine ⟨rfl, ?_⟩
      have h2 : u ∈ ["B"] := hmem
      simpa using h2
    · by_cases hx2 : x = "B"
      · subst hx2
        have hd : d = mkDashboard "B" "B title" "rt" "" [includeItem "C"] :=
          (Except.ok.inj hload).symm
        subst hd
        right; left
        refine ⟨rfl, ?_⟩
        have h2 : u ∈ ["C"] := hmem
        simpa using h2
      · by_cases hx3 : x = "C"
        · subst hx3
          have hd : d = mkDashboard "C" "C title" "rt" "" [includeItem "A"] :=
            (Except.ok.inj hload).symm
          subst hd
          right; right
          refine ⟨rfl, ?_⟩
          have h2 : u ∈ ["A"] := hmem
          simpa using h2
        · exfalso
          simp only [loadRawDashboardResource, cycleStore, hx1, hx2, hx3,
            if_false] at hload
          simp at hload
  apply c1_cycle_detection cycleStore ⟨"", ""⟩ "ns" ["A", "B", "C"] "A" 4
  · intro ns2 t d h
    unfold cycleStore at h
    split_ifs at h with h1 h2 h3
    · simp [h1]
    · simp [h2]
    · simp [h3]
  · intro u hr
    have hmem : u = "A" ∨ u = "B" ∨ u = "C" := by
      induction hr with
      | refl => left; rfl
      | tail h1 h2 ih =>
        rcases hedge _ _ h2 with ⟨_, hu⟩ | ⟨_, hu⟩ | ⟨_, hu⟩ <;> simp [hu]
    rcases hmem with hu | hu | hu <;> subst hu
    · exact ⟨_, rfl⟩
    · exact ⟨_, rfl⟩
    · exact ⟨_, rfl⟩
  · refine ⟨"A", Relation.ReflTransGen.refl, ?_⟩
    have eAB : IncludeEdge cycleStore ⟨"", ""⟩ "ns" "A" "B" :=
      ⟨_, rfl, by decide⟩
    have eBC : IncludeEdge cycleStore ⟨"", ""⟩ "ns" "B" "C" :=
      ⟨_, rfl, by decide⟩
    have eCA : IncludeEdge cycleStore ⟨"", ""⟩ "ns" "C" "A" :=
      ⟨_, rfl, by decide⟩
    exact Relation.TransGen.head eAB
      (Relation.TransGen.head eBC (Relation.TransGen.single eCA))
  · decide

/-! ## Claim C2 -/

/-- C2: the two-tier lookup tries the specific namespace first; a success
there wins outright; on failure with a configured global namespace the
global attempt decides the outcome (its success wins, its error surfaces);
on failure without a global namespace the first error surfaces. -/
theorem c2_two_tier_lookup (store : Store) (cfg : Config) (ns tpl : String) :
    (∀ d, store ns tpl = .ok d →
      loadRawDashboardResource store cfg ns tpl = .ok d) ∧
    (∀ e d, store ns tpl = .error e → cfg.globalNamespace ≠ "" →
      store cfg.globalNamespace tpl = .ok d →
      loadRawDashboardResource store cfg ns tpl = .ok d) ∧
    (∀ e e2, store ns tpl = .error e → cfg.globalNamespace ≠ "" →
      store cfg.globalNamespace tpl = .error e2 →
      loadRawDashboardResource store cfg ns tpl = .error e2) ∧
    (∀ e, store ns tpl = .error e → cfg.globalNamespace = "" →
      loadRawDashboardResource store cfg ns tpl = .error e) := by
  refine ⟨?_, ?_, ?_, ?_⟩
  · intro d h
    simp [loadRawDashboardResource, h]
  · intro e d h hg hok
    simp [loadRawDashboardResource, h, hg, hok]
  · intro e e2 h hg herr
    simp [loadRawDashboardResource, h, hg, herr]
  · intro e h hg
    simp [loadRawDashboardResource, h, hg]

/-- Witness for C2: override precedence (namespace-specific version wins),
fallback (global-only template still resolves), and the final attempt's
error surfacing when both tiers miss. -/
theorem c2_two_tier_lookup_witness :
    loadRawDashboardResource twoTierStore ⟨"global", ""⟩ "ns" "both"
        = .ok (mkDashboard "both" "ns version" "rt" "" []) ∧
    loadRawDashboardResource twoTierStore ⟨"global", ""⟩ "ns" "gonly"
        = .ok (mkDashboard "gonly" "global only" "rt" "" []) ∧
    loadRawDashboardResource twoTierStore ⟨"global", ""⟩ "ns" "missing"
        = .error "not found in global" :=
  ⟨(c2_two_tier_lookup twoTierStore ⟨"global", ""⟩ "ns" "both").1 _ rfl,
   (c2_two_tier_lookup twoTierStore ⟨"global", ""⟩ "ns" "gonly").2.1 _ _
     rfl (by decide) rfl,
   (c2_two_tier_lookup twoTierStore ⟨"global", ""⟩ "ns" "missing").2.2.1 _ _
     rfl (by decide) rfl⟩

/-- C3: item expansion is in place and follows source order: expanding a
concatenation concatenates the expansions (threading the `loaded` chain left
to right), an inline item expands to itself alone, and the concrete example
template A (3 items, position 2 including B's 2 inline charts) resolves to
the 5 items [A1, B1, B2, A3] in order. -/
theorem c3_in_place_expansion :
    (∀ store cfg ns fuel xs ys loaded rx l1 ry l2,
      resolveItems store cfg ns fuel xs loaded = .ok (rx, l1) →
      resolveItems store cfg ns fuel ys l1 = .ok (ry, l2) →
      resolveItems store cfg ns fuel (xs ++ ys) loaded = .ok (rx ++ ry, l2)) ∧
    (∀ store cfg ns fuel item loaded, trimSpace item.includeRef = "" →
      resolveItems store cfg ns fuel [item] loaded = .ok ([item], loaded)) ∧
    loadAndResolveDashboardResource flattenStore ⟨"", ""⟩ "ns" 3 "A" []
      = .ok (mkDashboard "A" "A title" "rt" ""
          [inlineItem "A1", inlineItem "B1", inlineItem "B2", inlineItem "A3"],
        ["B", "A"]) := by
  refine ⟨?_, ?_, rfl⟩
  · intro store cfg ns fuel xs
    induction xs with
    | nil =>
      intro ys loaded rx l1 ry l2 h1 h2
      simp only [resolveItems, resolveItemsGo] at h1
      injection h1 with heq
      injection heq with ha hb
      subst ha; subst hb
      simpa using h2
    | cons item rest ih =>
      intro ys loaded rx l1 ry l2 h1 h2
      simp only [resolveItems, resolveItemsGo, List.cons_append,
        List.append_eq] at h1 ⊢
      by_cases href : trimSpace item.includeRef = ""
      · rw [if_pos href] at h1 ⊢
        split at h1
        · rename_i r0 l0 heq
          injection h1 with heq2
          injection heq2 with ha hb
          subst ha; subst hb
          have hmid := ih ys loaded _ _ ry l2 heq h2
          simp only [resolveItems] at hmid
          rw [hmid]
          simp
        · cases h1
      · rw [if_neg href] at h1 ⊢
        cases hrec : loadAndResolveDashboardResource store cfg ns fuel
            ((splitOnDollar (trimSpace item.includeRef)).headD "") loaded with
        | error e =>
          rw [hrec] at h1
          simp at h1
        | ok val =>
          obtain ⟨composed, loaded1⟩ := val
          rw [hrec] at h1
          dsimp only at h1 ⊢
          split at h1
          · rename_i r0 l0 heq
            injection h1 with heq2
            injection heq2 with ha hb
            subst ha; subst hb
            have hmid := ih ys loaded1 _ _ ry l2 heq h2
            simp only [resolveItems] at hmid
            rw [hmid]
            simp [List.append_assoc]
          · cases h1
  · intro store cfg ns fuel item loaded h
    simp [resolveItems, resolveItemsGo, h]

/-- Witness for C3: expanding A's first item and then its remaining two
items concatenates to the expansion of all three. -/
theorem c3_in_place_expansion_witness :
    resolveItems flattenStore ⟨"", ""⟩ "ns" 2
        ([inlineItem "A1"] ++ [includeItem "B", inlineItem "A3"]) []
      = .ok ([inlineItem "A1"]
          ++ [inlineItem "B1", inlineItem "B2", inlineItem "A3"], ["B"]) :=
  c3_in_place_expansion.1 flattenStore ⟨"", ""⟩ "ns" 2
    [inlineItem "A1"] [includeItem "B", inlineItem "A3"] [] _ _ _ _ rfl rfl

/-! ## Claim C4 -/

theorem find?_append_first {α : Type} {p : α → Bool} {pre post : List α}
    {it : α} (hpre : ∀ x ∈ pre, p x = false) (hit : p it = true) :
    List.find? p (pre ++ it :: post) = some it := by
  induction pre with
  | nil => simp [List.find?_cons, hit]
  | cons a rest ih =>
    have ha : p a = false := hpre a (List.mem_cons_self a rest)
    rw [List.cons_append, List.find?_cons, ha]
    exact ih (fun x hx => hpre x (List.mem_cons_of_mem a hx))

/-- C4: a scoped include reference `template$chart` splices in exactly the
first item of the fully resolved referenced template whose chart name equals
the requested chart name; items after the first match (including duplicate
chart names) are ignored without error. -/
theorem c4_scoped_include (store : Store) (cfg : Config) (ns : String)
    (fuel : Nat) (item : MonitoringDashboardItem) (loaded : List String)
    (tplName chartName : String) (composed : MonitoringDashboard)
    (l1 : List String) (pre post : List MonitoringDashboardItem)
    (it : MonitoringDashboardItem)
    (hsplit : splitOnDollar (trimSpace item.includeRef)
      = [tplName, chartName])
    (hrec : loadAndResolveDashboardResource store cfg ns fuel tplName loaded
      = .ok (composed, l1))
    (hitems : composed.spec.items = pre ++ it :: post)
    (hit : it.chart.name = chartName)
    (hpre : ∀ it2 ∈ pre, it2.chart.name ≠ chartName) :
    resolveItems store cfg ns fuel [item] loaded = .ok ([it], l1) := by
  have hne : trimSpace item.includeRef ≠ "" := by
    intro hc
    rw [hc] at hsplit
    have : splitOnDollar "" = [""] := rfl
    rw [this] at hsplit
    cases hsplit
  have hfind : composed.spec.items.find?
      (fun it2 => it2.chart.name == chartName) = some it := by
    rw [hitems]
    exact find?_append_first
      (fun x hx => beq_eq_false_iff_ne.mpr (hpre x hx))
      (beq_iff_eq.mpr hit)
  simp only [resolveItems, resolveItemsGo, hne, if_neg, hsplit,
    List.headD, List.drop, hrec, hfind]
  simp

/-- Witness for C4: `B$ChartX` resolves to just the first ChartX item, with
the duplicate ChartX ignored and no error. -/
theorem c4_scoped_include_witness :
    resolveItems scopedStore ⟨"", ""⟩ "ns" 2 [includeItem "B$ChartX"] []
      = .ok ([inlineItem "ChartX"], ["B"]) :=
  c4_scoped_include scopedStore ⟨"", ""⟩ "ns" 2 (includeItem "B$ChartX") []
    "B" "ChartX" _ _ [] [inlineItem "ChartY", ⟨"", ⟨"ChartX", ["dup"], "", ""⟩⟩]
    (inlineItem "ChartX") rfl rfl rfl rfl (by simp)

/-- C10: the cycle-detection set only accumulates — every successfully
resolved template is recorded and no name is ever removed afterwards — so
resolving any acyclic diamond (distinct dollar-free template names `a`
including `b` and `c`, both including `d`) fails with a circular-dependency
error on the second inclusion of `d`, despite the graph being acyclic. -/
theorem c10_diamond_false_cycle :
    (∀ store cfg ns fuel t loaded d L2,
      loadAndResolveDashboardResource store cfg ns fuel t loaded
        = .ok (d, L2) →
      ∃ grown, L2 = grown ++ loaded ∧ t ∈ grown) ∧
    (∀ (a b c d : String) (cfg : Config) (ns : String),
      a ≠ b → a ≠ c → a ≠ d → b ≠ c → b ≠ d → c ≠ d →
      b ≠ "" → c ≠ "" → d ≠ "" →
      trimSpace b = b → trimSpace c = c → trimSpace d = d →
      splitOnDollar b = [b] → splitOnDollar c = [c] →
      splitOnDollar d = [d] →
      loadAndResolveDashboardResource (diamondStore a b c d) cfg ns 5 a []
        = .error (.circular d [c, d, b, a])) := by
  constructor
  · exact fun store cfg ns fuel t loaded d L2 h =>
      loadAndResolve_suffix store cfg ns fuel t loaded d L2 h
  · intro a b c d cfg ns hab hac had hbc hbd hcd hbne hcne hdne
      htb htc htd hsb hsc hsd
    have hte : trimSpace "" = "" := rfl
    simp [loadAndResolveDashboardResource, resolveItemsGo, diamondStore,
      loadRawDashboardResource, mkDashboard, includeItem, inlineItem,
      htb, htc, htd, hsb, hsc, hsd, hbne, hcne, hdne, hte,
      hab, hac, had, hbc, hbd, hcd,
      Ne.symm hab, Ne.symm hac, Ne.symm had, Ne.symm hbc, Ne.symm hbd,
      Ne.symm hcd]

/-- Witness for C10: the concrete diamond A → (B, C) → D fails with a
circular-dependency error at D even though the graph is acyclic. -/
theorem c10_diamond_false_cycle_witness :
    loadAndResolveDashboardResource (diamondStore "A" "B" "C" "D")
        ⟨"", ""⟩ "ns" 5 "A" []
      = .error (.circular "D" ["C", "D", "B", "A"]) :=
  c10_diamond_false_cycle.2 "A" "B" "C" "D" ⟨"", ""⟩ "ns"
    (by decide) (by decide) (by decide) (by decide) (by decide) (by decide)
    (by decide) (by decide) (by decide)
    (by decide) (by decide) (by decide)
    (by decide) (by decide) (by decide)

/-! ## Discovery lemmas -/

theorem foldl_preserves {α β : Type} {P : β → Prop} {f : β → α → β}
    (hf : ∀ b a, P b → P (f b a)) :
    ∀ (l : List α) (b : β), P b → P (l.foldl f b) := by
  intro l
  induction l with
  | nil => intro b hb; exact hb
  | cons a rest ih => intro b hb; exact ih (f b a) (hf b a hb)

theorem valuesNamedByKey_insert {m : RuntimesMap}
    {d : MonitoringDashboard} (h : ValuesNamedByKey m) :
    ValuesNamedByKey (runtimesMapInsert m d) := by
  unfold runtimesMapInsert
  split
  · exact h
  · intro kv hkv d2 hd2
    rcases List.mem_append.mp hkv with h1 | h1
    · exact h kv h1 d2 hd2
    · simp at h1
      subst h1
      simp at hd2
      simp [hd2]

theorem valuesNamedByKey_suppress {m : RuntimesMap} {key : String}
    (h : ValuesNamedByKey m) :
    ValuesNamedByKey (runtimesMapSuppress m key) := by
  unfold runtimesMapSuppress
  split
  · intro kv hkv d2 hd2
    obtain ⟨kv0, hkv0, hmap⟩ := List.mem_map.mp hkv
    by_cases hk : kv0.1 == key
    · rw [if_pos hk] at hmap
      rw [← hmap] at hd2
      cases hd2
    · rw [if_neg hk] at hmap
      subst hmap
      exact h kv0 hkv0 d2 hd2
  · intro kv hkv d2 hd2
    rcases List.mem_append.mp hkv with h1 | h1
    · exact h kv h1 d2 hd2
    · simp at h1
      subst h1
      cases hd2

theorem valuesNamedByKey_matchDashboard {metrics : List String}
    {m : RuntimesMap} {dashboard : MonitoringDashboard}
    (h : ValuesNamedByKey m) :
    ValuesNamedByKey (matchDashboard metrics m dashboard) := by
  simp only [matchDashboard]
  split
  · apply foldl_preserves (P := ValuesNamedByKey)
    · intro b item hb
      split
      · exact valuesNamedByKey_suppress hb
      · exact hb
    · exact valuesNamedByKey_insert h
  · exact h

theorem suppressedAt_insert {m : RuntimesMap} {key : String}
    {d : MonitoringDashboard} (h : SuppressedAt m key) :
    SuppressedAt (runtimesMapInsert m d) key := by
  obtain ⟨⟨kv0, hkv0, hk0⟩, hall⟩ := h
  unfold runtimesMapInsert
  split
  · exact ⟨⟨kv0, hkv0, hk0⟩, hall⟩
  · refine ⟨⟨kv0, List.mem_append_left _ hkv0, hk0⟩, ?_⟩
    intro kv hkv hk
    rcases List.mem_append.mp hkv with h1 | h1
    · exact hall kv h1 hk
    · rename_i hnotin
      simp at h1
      subst h1
      simp at hk
      exfalso
      exact hnotin (List.any_eq_true.mpr ⟨kv0, hkv0,
        by rw [hk0, ← hk]; exact beq_self_eq_true _⟩)

theorem suppressedAt_suppress_self {m : RuntimesMap} {key : String} :
    SuppressedAt (runtimesMapSuppress m key) key := by
  unfold runtimesMapSuppress
  split
  · rename_i hany
    obtain ⟨kv0, hkv0, hk0⟩ := List.any_eq_true.mp hany
    constructor
    · refine ⟨(kv0.1, none), List.mem_map.mpr ⟨kv0, hkv0, by simp [hk0]⟩,
        by simpa using eq_of_beq hk0⟩
    · intro kv hkv hk
      obtain ⟨kv1, hkv1, hmap⟩ := List.mem_map.mp hkv
      by_cases hk1 : kv1.1 == key
      · rw [if_pos hk1] at hmap
        simp [← hmap]
      · rw [if_neg hk1] at hmap
        subst hmap
        exact absurd (beq_iff_eq.mpr hk) hk1
  · constructor
    · exact ⟨(key, none), List.mem_append_right _ (by simp), rfl⟩
    · intro kv hkv hk
      rcases List.mem_append.mp hkv with h1 | h1
      · rename_i hnotany
        exfalso
        exact hnotany (List.any_eq_true.mpr ⟨kv, h1, beq_iff_eq.mpr hk⟩)
      · simp at h1
        simp [h1]

theorem suppressedAt_suppress_other {m : RuntimesMap} {key key2 : String}
    (h : SuppressedAt m key) :
    SuppressedAt (runtimesMapSuppress m key2) key := by
  obtain ⟨⟨kv0, hkv0, hk0⟩, hall⟩ := h
  unfold runtimesMapSuppress
  split
  · constructor
    · refine ⟨(if kv0.1 == key2 then (kv0.1, none) else kv0), ?_, ?_⟩
      · exact List.mem_map.mpr ⟨kv0, hkv0, rfl⟩
      · split
        · simpa using hk0
        · exact hk0
    · intro kv hkv hk
      obtain ⟨kv1, hkv1, hmap⟩ := List.mem_map.mp hkv
      by_cases hk1 : kv1.1 == key2
      · rw [if_pos hk1] at hmap
        simp [← hmap]
      · rw [if_neg hk1] at hmap
        subst hmap
        exact hall kv1 hkv1 hk
  · constructor
    · exact ⟨kv0, List.mem_append_left _ hkv0, hk0⟩
    · intro kv hkv hk
      rcases List.mem_append.mp hkv with h1 | h1
      · exact hall kv h1 hk
      · simp at h1
        simp [h1]

theorem suppressedAt_matchDashboard {metrics : List String}
    {m : RuntimesMap} {dashboard : MonitoringDashboard} {key : String}
    (h : SuppressedAt m key) :
    SuppressedAt (matchDashboard metrics m dashboard) key := by
  simp only [matchDashboard]
  split
  · apply foldl_preserves (P := fun m2 => SuppressedAt m2 key)
    · intro b item hb
      split
      · exact suppressedAt_suppress_other hb
      · exact hb
    · exact suppressedAt_insert h
  · exact h

theorem suppressedAt_itemsFold {s : String} (hs : s ≠ "") :
    ∀ (items : List MonitoringDashboardItem) (m0 : RuntimesMap),
      (∃ item ∈ items, item.includeRef = s) →
      SuppressedAt (items.foldl
        (fun acc item =>
          if item.includeRef ≠ "" then runtimesMapSuppress acc item.includeRef
          else acc) m0) s := by
  intro items
  induction items with
  | nil =>
    intro m0 hex
    obtain ⟨item, hmem, _⟩ := hex
    cases hmem
  | cons item0 rest ih =>
    intro m0 hex
    simp only [List.foldl_cons]
    by_cases h0 : item0.includeRef = s
    · apply foldl_preserves
        (P := fun m2 => SuppressedAt m2 s)
      · intro b it hb
        split
        · exact suppressedAt_suppress_other hb
        · exact hb
      · rw [if_pos (by rw [h0]; exact hs), h0]
        exact suppressedAt_suppress_self
    · obtain ⟨item1, hmem1, hs1⟩ := hex
      rcases List.mem_cons.mp hmem1 with h1 | h1
      · exact absurd (h1 ▸ hs1) h0
      · exact ih _ ⟨item1, h1, hs1⟩

/-- A matched dashboard suppresses (binds to `nil`) the raw include string
of each of its include items. -/
theorem matchDashboard_suppresses {metrics : List String} {m : RuntimesMap}
    {dashboard : MonitoringDashboard} {s : String}
    (hdisc : trimSpace dashboard.spec.discoverOn ≠ "")
    (hmetric : metrics.any (fun metric =>
      trimSpace dashboard.spec.discoverOn == trimSpace metric) = true)
    (hitem : ∃ item ∈ dashboard.spec.items, item.includeRef = s)
    (hs : s ≠ "") :
    SuppressedAt (matchDashboard metrics m dashboard) s := by
  simp only [matchDashboard]
  rw [if_pos ⟨hdisc, hmetric⟩]
  exact suppressedAt_itemsFold hs dashboard.spec.items _ hitem

theorem allRefs_appendRef {P : DashboardRef → Prop} {n : String}
    {ref : DashboardRef} (href : P ref) :
    ∀ {l : List Runtime}, AllRefs l P →
      AllRefs (appendRefToRuntimes n ref l) P := by
  intro l
  induction l with
  | nil =>
    intro _ rt hrt ref2 href2
    simp [appendRefToRuntimes] at hrt
    subst hrt
    simp at href2
    subst href2
    exact href
  | cons r rest ih =>
    intro hl rt hrt ref2 href2
    unfold appendRefToRuntimes at hrt
    split at hrt
    · rcases List.mem_cons.mp hrt with h1 | h1
      · subst h1
        simp at href2
        rcases href2 with h2 | h2
        · exact hl r (List.mem_cons_self r rest) ref2 h2
        · subst h2; exact href
      · exact hl rt (List.mem_cons_of_mem r h1) ref2 href2
    · rcases List.mem_cons.mp hrt with h1 | h1
      · subst h1
        exact hl rt (List.mem_cons_self rt rest) ref2 href2
      · exact ih (fun x hx => hl x (List.mem_cons_of_mem r hx)) rt h1
          ref2 href2

theorem allRefs_buildRuntimes {P : DashboardRef → Prop} :
    ∀ (m : RuntimesMap) (acc : List Runtime),
      AllRefs acc P →
      (∀ kv ∈ m, ∀ d : MonitoringDashboard, kv.2 = some d →
        P ⟨d.name, d.spec.title⟩) →
      AllRefs (m.foldl
        (fun acc2 kv =>
          match kv.2 with
          | some dashboard => addDashboardToRuntimes dashboard acc2
          | none => acc2) acc) P := by
  intro m
  induction m with
  | nil => intro acc hacc _; exact hacc
  | cons kv rest ih =>
    intro acc hacc hm
    simp only [List.foldl_cons]
    cases hv : kv.2 with
    | none =>
      exact ih acc hacc (fun kv2 h2 => hm kv2 (List.mem_cons_of_mem kv h2))
    | some d =>
      exact ih (addDashboardToRuntimes d acc)
        (allRefs_appendRef (hm kv (List.mem_cons_self kv rest) d hv) hacc)
        (fun kv2 h2 => hm kv2 (List.mem_cons_of_mem kv h2))

theorem mem_insertRuntimeByName {x rt : Runtime} :
    ∀ {l : List Runtime}, x ∈ insertRuntimeByName rt l ↔ x = rt ∨ x ∈ l := by
  intro l
  induction l with
  | nil => simp [insertRuntimeByName]
  | cons r rest ih =>
    unfold insertRuntimeByName
    split
    · simp [or_comm, List.mem_cons]
    · simp only [List.mem_cons, ih]
      tauto

theorem mem_sortRuntimesByName {x : Runtime} :
    ∀ {l : List Runtime}, x ∈ sortRuntimesByName l ↔ x ∈ l := by
  intro l
  induction l with
  | nil => simp [sortRuntimesByName]
  | cons r rest ih =>
    unfold sortRuntimesByName at ih ⊢
    simp only [List.foldr_cons, mem_insertRuntimeByName, ih, List.mem_cons]

theorem allRefs_sort {P : DashboardRef → Prop} {l : List Runtime}
    (h : AllRefs l P) : AllRefs (sortRuntimesByName l) P :=
  fun rt hrt => h rt (mem_sortRuntimesByName.mp hrt)

/-- Counterexample to C5 as stated: with a scoped include `Child$ChartX`,
the matcher suppresses the literal string `"Child$ChartX"` — not the
referenced template name `"Child"` — so the included template Child IS
reported as a standalone dashboard even though its including parent
matches. -/
theorem c5_counterexample :
    runDiscoveryMatcher ["m1"] parentChildScopedDashboards
      = [⟨"vm", [⟨"Parent", "Parent title"⟩]⟩,
         ⟨"vm2", [⟨"Child", "Child title"⟩]⟩] ∧
    (⟨"Child", "Child title"⟩ : DashboardRef)
      ∈ (⟨"vm2", [⟨"Child", "Child title"⟩]⟩ : Runtime).dashboardRefs := by
  have hle : ("vm" : String) ≤ "vm2" := by
    rw [String.le_iff_toList_le]
    decide
  constructor
  · show insertRuntimeByName ⟨"vm", [⟨"Parent", "Parent title"⟩]⟩
        [⟨"vm2", [⟨"Child", "Child title"⟩]⟩]
      = [⟨"vm", [⟨"Parent", "Parent title"⟩]⟩,
         ⟨"vm2", [⟨"Child", "Child title"⟩]⟩]
    unfold insertRuntimeByName
    rw [if_pos hle]
  · decide

/-- C5 (amended): the matcher marks the raw `Include` string of every
include item of a matched dashboard as suppressed, so no dashboard whose
name equals that raw string is ever reported; for whole-template references
the raw string is the template name, giving the claimed suppression, while
scoped references (`template$chart`) suppress only the literal string. -/
theorem c5_suppression_by_raw_include (metrics : List String)
    (allDashboards : List MonitoringDashboard)
    (parent : MonitoringDashboard) (s : String)
    (hP : parent ∈ allDashboards)
    (hdisc : trimSpace parent.spec.discoverOn ≠ "")
    (hmetric : metrics.any (fun metric =>
      trimSpace parent.spec.discoverOn == trimSpace metric) = true)
    (hitem : ∃ item ∈ parent.spec.items, item.includeRef = s)
    (hs : s ≠ "") :
    ∀ rt ∈ runDiscoveryMatcher metrics allDashboards,
      ∀ ref ∈ rt.dashboardRefs, ref.template ≠ s := by
  obtain ⟨pre, post, hsplit⟩ := List.append_of_mem hP
  have hfold : allDashboards.foldl (matchDashboard metrics) []
      = post.foldl (matchDashboard metrics)
          (matchDashboard metrics (pre.foldl (matchDashboard metrics) [])
            parent) := by
    rw [hsplit, List.foldl_append, List.foldl_cons]
  have hsup : SuppressedAt
      (allDashboards.foldl (matchDashboard metrics) []) s := by
    rw [hfold]
    apply foldl_preserves (P := fun m2 => SuppressedAt m2 s)
    · intro b d hb
      exact suppressedAt_matchDashboard hb
    · exact matchDashboard_suppresses hdisc hmetric hitem hs
  have hnamed : ValuesNamedByKey
      (allDashboards.foldl (matchDashboard metrics) []) := by
    apply foldl_preserves (P := ValuesNamedByKey)
    · intro b d hb
      exact valuesNamedByKey_matchDashboard hb
    · intro kv hkv
      cases hkv
  have hP2 : ∀ kv ∈ allDashboards.foldl (matchDashboard metrics) [],
      ∀ d : MonitoringDashboard, kv.2 = some d →
        (⟨d.name, d.spec.title⟩ : DashboardRef).template ≠ s := by
    intro kv hkv d hd
    have hname : d.name = kv.1 := hnamed kv hkv d hd
    intro hc
    have hkey : kv.1 = s := by rw [← hname]; exact hc
    have := hsup.2 kv hkv hkey
    rw [this] at hd
    cases hd
  exact allRefs_sort (allRefs_buildRuntimes _ []
    (fun rt hrt => absurd hrt (List.not_mem_nil rt)) hP2)

/-- Witness for (amended) C5: with a whole-template include, Child never
appears in the discovery output even though it independently matches. -/
theorem c5_suppression_by_raw_include_witness :
    (runDiscoveryMatcher ["m1"] parentChildDashboards).all
      (fun rt => rt.dashboardRefs.all
        (fun ref => ref.template ≠ "Child")) = true := by
  rw [List.all_eq_true]
  intro rt hrt
  rw [List.all_eq_true]
  intro ref href
  exact decide_eq_true
    (c5_suppression_by_raw_include ["m1"] parentChildDashboards
      (mkDashboard "Parent" "Parent title" "vm" "m1" [includeItem "Child"])
      "Child" (by decide) (by decide) (by decide)
      ⟨includeItem "Child", by decide, rfl⟩ (by decide) rt hrt ref href)

/-! ## Claim C6 -/

theorem matchDashboard_nil_metrics (m : RuntimesMap)
    (dashboard : MonitoringDashboard) :
    matchDashboard [] m dashboard = m := by
  simp [matchDashboard]

theorem runDiscoveryMatcher_nil_metrics
    (allDashboards : List MonitoringDashboard) :
    runDiscoveryMatcher [] allDashboards = [] := by
  unfold runDiscoveryMatcher
  have h : allDashboards.foldl (matchDashboard []) [] = [] := by
    induction allDashboards with
    | nil => rfl
    | cons d rest ih =>
      rw [List.foldl_cons, matchDashboard_nil_metrics]
      exact ih
  rw [h]
  rfl

/-- Counterexample to C6 as stated: `DiscoverDashboards` returns
`[]model.Runtime` — there is no error result in its signature.  When
template loading fails it logs and returns the plain empty list, even
though the same templates would produce a non-empty result on success; the
caller cannot distinguish this from "no matches". -/
theorem c6_counterexample :
    DiscoverDashboards (.error "cannot load dashboards") (.ok ())
        (.ok ["m1"]) = ([] : List Runtime) ∧
    DiscoverDashboards (.ok parentChildDashboards) (.ok ())
        (.ok ["m1"]) ≠ ([] : List Runtime) := by
  constructor
  · rfl
  · intro hc
    have heval : DiscoverDashboards (.ok parentChildDashboards) (.ok ())
        (.ok ["m1"]) = [⟨"vm", [⟨"Parent", "Parent title"⟩]⟩] := rfl
    rw [heval] at hc
    cases hc

/-- C6 (amended): a template-load failure aborts discovery — the matcher is
never run and the empty list (not an error: the return type carries none) is
returned; a metric-fetch failure (client initialization or query) degrades
to an empty metric set, with which the matcher yields no results. -/
theorem c6_failure_policy :
    (∀ (e : String) (promInit : Except String Unit)
        (fetched : Except String (List String)),
      DiscoverDashboards (.error e) promInit fetched = []) ∧
    (∀ (allDashboards : List MonitoringDashboard) (e : String)
        (fetched : Except String (List String)),
      DiscoverDashboards (.ok allDashboards) (.error e) fetched
        = runDiscoveryMatcher [] allDashboards) ∧
    (∀ (allDashboards : List MonitoringDashboard) (e : String),
      DiscoverDashboards (.ok allDashboards) (.ok ()) (.error e)
        = runDiscoveryMatcher [] allDashboards) ∧
    (∀ allDashboards : List MonitoringDashboard,
      runDiscoveryMatcher [] allDashboards = []) := by
  refine ⟨fun e p f => rfl, fun ds e f => rfl, fun ds e => rfl, ?_⟩
  exact runDiscoveryMatcher_nil_metrics

/-! ## Claim C7 -/

/-- C7: the grouping-label set is the chart's group labels concatenated
with the caller's byLabels; a declared sort label absent from that set is
appended with the strip flag raised (and the flagged conversion removes it
from every series label); a sort label already present leaves the set
unchanged and the flag down.  The concrete chart of the spec's test is
queried with grouping `app,version`. -/
theorem c7_sort_label_grouping :
    (∀ (chart : MonitoringDashboardChart) (paramsByLabels : List String),
      chart.sortLabel.length > 0 →
      (chart.groupLabels ++ paramsByLabels).contains chart.sortLabel
        = false →
      chartByLabels chart paramsByLabels
        = (chart.groupLabels ++ paramsByLabels ++ [chart.sortLabel], true)) ∧
    (∀ (chart : MonitoringDashboardChart) (paramsByLabels : List String),
      (chart.groupLabels ++ paramsByLabels).contains chart.sortLabel = true →
      chartByLabels chart paramsByLabels
        = (chart.groupLabels ++ paramsByLabels, false)) ∧
    (∀ (params : ConversionParams) (labels : List (String × String)),
      params.removeSortLabel = true →
      ∀ kv ∈ stripSortLabel params labels, kv.1 ≠ params.sortLabel) ∧
    (chartGroupingString ⟨"c", ["app"], "version", ""⟩ [] = "app,version" ∧
      chartByLabels ⟨"c", ["app"], "version", ""⟩ []
        = (["app", "version"], true)) := by
  refine ⟨?_, ?_, ?_, rfl, rfl⟩
  · intro chart paramsByLabels h1 h2
    have hmem : chart.sortLabel ∉ chart.groupLabels
        ∧ chart.sortLabel ∉ paramsByLabels := by
      simpa using h2
    simp [chartByLabels, h1, hmem.1, hmem.2, List.append_assoc]
  · intro chart paramsByLabels h
    have hmem : chart.sortLabel ∈ chart.groupLabels ++ paramsByLabels := by
      simpa using h
    rcases List.mem_append.mp hmem with h1 | h1 <;>
      simp [chartByLabels, h1]
  · intro params labels h kv hkv
    simp [stripSortLabel, h, List.mem_filter] at hkv
    exact hkv.2

/-- Witness for C7: sortLabel `version` with groupLabels `[app]` and no
caller byLabels yields grouping set `[app, version]` with the strip flag
raised, and the flagged conversion exposes no `version` label. -/
theorem c7_sort_label_grouping_witness :
    chartByLabels ⟨"c", ["app"], "version", ""⟩ []
      = (["app"] ++ [] ++ ["version"], true) ∧
    ∀ kv ∈ stripSortLabel ⟨"version", "", true⟩
        [("app", "a1"), ("version", "v1")], kv.1 ≠ "version" := by
  constructor
  · exact c7_sort_label_grouping.1 ⟨"c", ["app"], "version", ""⟩ []
      (by decide) (by decide)
  · exact c7_sort_label_grouping.2.2.1 ⟨"version", "", true⟩
      [("app", "a1"), ("version", "v1")] rfl

/-! ## Claim C8 -/

theorem sorted_insertRuntimeByName {rt : Runtime} :
    ∀ {l : List Runtime},
      l.Sorted (fun a b : Runtime => a.name ≤ b.name) →
      (insertRuntimeByName rt l).Sorted
        (fun a b : Runtime => a.name ≤ b.name) := by
  intro l
  induction l with
  | nil => intro _; simp [insertRuntimeByName]
  | cons r rest ih =>
    intro hs
    obtain ⟨hr, hrest⟩ := List.sorted_cons.mp hs
    unfold insertRuntimeByName
    split
    · rename_i hle
      refine List.sorted_cons.mpr ⟨?_, hs⟩
      intro b hb
      rcases List.mem_cons.mp hb with h1 | h1
      · rw [h1]; exact hle
      · exact le_trans hle (hr b h1)
    · rename_i hnle
      have hrle : r.name ≤ rt.name := le_of_not_le hnle
      refine List.sorted_cons.mpr ⟨?_, ih hrest⟩
      intro b hb
      rcases mem_insertRuntimeByName.mp hb with h1 | h1
      · rw [h1]; exact hrle
      · exact hr b h1

theorem sorted_sortRuntimesByName (l : List Runtime) :
    (sortRuntimesByName l).Sorted (fun a b : Runtime => a.name ≤ b.name) := by
  induction l with
  | nil => simp [sortRuntimesByName]
  | cons r rest ih =>
    unfold sortRuntimesByName at ih ⊢
    simp only [List.foldr_cons]
    exact sorted_insertRuntimeByName ih

/-- C8: discovery output is sorted by runtime name ascending for every
metric set and every template iteration order; grouping is keyed by runtime
name — a dashboard whose runtime has no group yet appends a fresh group at
the end, and a dashboard whose runtime already has a group appends its
reference to the first such group, leaving all other groups unchanged. -/
theorem c8_runtime_grouping :
    (∀ (metrics : List String) (allDashboards : List MonitoringDashboard),
      (runDiscoveryMatcher metrics allDashboards).Sorted
        (fun a b : Runtime => a.name ≤ b.name)) ∧
    (∀ (dashboard : MonitoringDashboard) (runtimes : List Runtime),
      (∀ rt ∈ runtimes, rt.name ≠ dashboard.spec.runtime) →
      addDashboardToRuntimes dashboard runtimes
        = runtimes ++ [⟨dashboard.spec.runtime,
            [⟨dashboard.name, dashboard.spec.title⟩]⟩]) ∧
    (∀ (dashboard : MonitoringDashboard) (pre post : List Runtime)
        (rt : Runtime),
      rt.name = dashboard.spec.runtime →
      (∀ x ∈ pre, x.name ≠ dashboard.spec.runtime) →
      addDashboardToRuntimes dashboard (pre ++ rt :: post)
        = pre ++ { rt with dashboardRefs := rt.dashboardRefs
            ++ [⟨dashboard.name, dashboard.spec.title⟩] } :: post) := by
  refine ⟨?_, ?_, ?_⟩
  · intro metrics allDashboards
    exact sorted_sortRuntimesByName _
  · intro dashboard runtimes
    induction runtimes with
    | nil => intro _; rfl
    | cons r rest ih =>
      intro h
      unfold addDashboardToRuntimes appendRefToRuntimes
      rw [if_neg (fun hc => h r (List.mem_cons_self r rest) hc)]
      have := ih (fun x hx => h x (List.mem_cons_of_mem r hx))
      unfold addDashboardToRuntimes at this
      rw [this]
      rfl
  · intro dashboard pre post rt hrt
    induction pre with
    | nil =>
      intro _
      unfold addDashboardToRuntimes appendRefToRuntimes
      simp only [List.nil_append]
      rw [if_pos hrt]
    | cons p prest ih =>
      intro h
      unfold addDashboardToRuntimes
      rw [List.cons_append]
      simp only [appendRefToRuntimes]
      rw [if_neg (fun hc => h p (List.mem_cons_self p prest) hc)]
      have hmid := ih (fun x hx => h x (List.mem_cons_of_mem p hx))
      unfold addDashboardToRuntimes at hmid
      rw [hmid]
      rfl

/-- Witness for C8: a dashboard with a new runtime name creates a fresh
group at the end; a dashboard with an existing runtime name appends its
reference to that group. -/
theorem c8_runtime_grouping_witness :
    addDashboardToRuntimes (mkDashboard "Child" "Child title" "vm2" "m1" [])
        [⟨"vm", [⟨"Parent", "Parent title"⟩]⟩]
      = [⟨"vm", [⟨"Parent", "Parent title"⟩]⟩]
        ++ [⟨"vm2", [⟨"Child", "Child title"⟩]⟩] ∧
    addDashboardToRuntimes (mkDashboard "P2" "P2 title" "vm" "m1" [])
        ([] ++ (⟨"vm", [⟨"Parent", "Parent title"⟩]⟩ : Runtime) :: [])
      = [] ++ (⟨"vm", [⟨"Parent", "Parent title"⟩, ⟨"P2", "P2 title"⟩]⟩
          : Runtime) :: [] := by
  constructor
  · exact c8_runtime_grouping.2.1
      (mkDashboard "Child" "Child title" "vm2" "m1" [])
      [⟨"vm", [⟨"Parent", "Parent title"⟩]⟩] (by decide)
  · exact c8_runtime_grouping.2.2
      (mkDashboard "P2" "P2 title" "vm" "m1" []) [] []
      ⟨"vm", [⟨"Parent", "Parent title"⟩]⟩ rfl (by decide)

theorem foldl_selectorOfFilters (labelsFilters : List (String × String)) :
    ∀ acc : String,
      labelsFilters.foldl
        (fun a kv => a ++ "," ++ kv.1 ++ "=\"" ++ kv.2 ++ "\"") acc
        = acc ++ selectorOfFilters labelsFilters := by
  induction labelsFilters with
  | nil => intro acc; simp [selectorOfFilters]
  | cons kv rest ih =>
    intro acc
    rw [List.foldl_cons, ih]
    simp [selectorOfFilters, String.append_assoc]

/-- C9: the selector is the namespace label (the configured one, or
`namespace` by default) equality-constrained to the target namespace,
followed by one equality constraint per filter, wrapped in braces; on the
spec's example it is exactly the claimed string. -/
theorem c9_label_selector :
    (∀ (cfg : Config) (ns : String)
        (labelsFilters : List (String × String)),
      buildLabels cfg ns labelsFilters
        = "\x7b" ++ (if cfg.namespaceLabel = "" then defaultNamespaceLabel
            else cfg.namespaceLabel) ++ "=\"" ++ ns ++ "\""
          ++ selectorOfFilters labelsFilters ++ "\x7d") ∧
    defaultNamespaceLabel = "namespace" ∧
    buildLabels ⟨"", ""⟩ "ns1" [("app", "foo")]
      = "\x7bnamespace=\"ns1\",app=\"foo\"\x7d" := by
  refine ⟨?_, rfl, rfl⟩
  intro cfg ns labelsFilters
  show labelsFilters.foldl
      (fun acc kv => acc ++ "," ++ kv.1 ++ "=\"" ++ kv.2 ++ "\"")
      ("\x7b" ++ (if cfg.namespaceLabel = "" then defaultNamespaceLabel
        else cfg.namespaceLabel) ++ "=\"" ++ ns ++ "\"") ++ "\x7d"
    = "\x7b" ++ (if cfg.namespaceLabel = "" then defaultNamespaceLabel
        else cfg.namespaceLabel) ++ "=\"" ++ ns ++ "\""
      ++ selectorOfFilters labelsFilters ++ "\x7d"
  rw [foldl_selectorOfFilters]

end KCharted
